import Mathlib

/-!
Verification development for the hybrid relevance-ranking engine of the
issue-tracker front end (files: the IssueSearch engine, the SearchScorer
signal scorer, the VectorSearch embedding index, and their shared types).

Scores are modelled as rationals (ℚ); JavaScript strings are modelled as
Lean strings manipulated through explicit character-list helpers that model
the ECMAScript primitives used by the source (toLowerCase, trim, split,
includes, startsWith, RegExp). Stateful Map population is modelled as
association lists updated by a set-or-overwrite operation.
-/

/-! ## Models of ECMAScript string primitives -/

/-- Model of ECMAScript toLowerCase, restricted to ASCII case folding. -/
def jsToLowerList (l : List Char) : List Char := l.map Char.toLower

/-- Model of ECMAScript String.prototype.trim: drop whitespace on both ends. -/
def jsTrimList (l : List Char) : List Char :=
  ((l.dropWhile Char.isWhitespace).reverse.dropWhile Char.isWhitespace).reverse

/-- Model of ECMAScript String.prototype.includes: substring containment. -/
def containsList (needle : List Char) : List Char → Bool
  | [] => needle.isEmpty
  | c :: t' => needle.isPrefixOf (c :: t') || containsList needle t'

/-- Model of splitting on whitespace runs and discarding empty fragments.
This equals the composition split(/\s+/) followed by removing empty strings,
which is how both call sites in the source consume the split. -/
def splitNonWsGo (cur : List Char) : List Char → List (List Char)
  | [] => if cur.isEmpty then [] else [cur.reverse]
  | c :: r =>
    if c.isWhitespace then
      (if cur.isEmpty then splitNonWsGo [] r else cur.reverse :: splitNonWsGo [] r)
    else splitNonWsGo (c :: cur) r

def splitNonWs (l : List Char) : List (List Char) := splitNonWsGo [] l

/-- Model of replacing every whitespace run by a single space
(the /\s+/g to space replacement used by VectorSearch preprocessing). -/
def collapseWsGo (prevWs : Bool) : List Char → List Char
  | [] => []
  | c :: r =>
    if c.isWhitespace then
      (if prevWs then collapseWsGo true r else ' ' :: collapseWsGo true r)
    else c :: collapseWsGo false r

def collapseWs (l : List Char) : List Char := collapseWsGo false l

/-- Count of non-overlapping left-to-right occurrences of a literal pattern,
as produced by a global ECMAScript regex match of a metacharacter-free
pattern. The empty pattern matches at every position (length + 1 times).
Fuel keeps the recursion structural; the initial fuel is always sufficient
because every step consumes at least one character. -/
def countOccGo (p : List Char) : ℕ → List Char → ℕ
  | 0, _ => 0
  | fuel + 1, t =>
    if p.isPrefixOf t then 1 + countOccGo p fuel (t.drop p.length)
    else match t with
      | [] => 0
      | _ :: t' => countOccGo p fuel t'

def countOcc (p t : List Char) : ℕ :=
  if p.isEmpty then t.length + 1 else countOccGo p (t.length + 1) t

/-! ## Model of ECMAScript RegExp pattern compilation

The source builds a regex directly from each raw query term with
new RegExp(term, "gi"). Compilation of an invalid pattern throws a
SyntaxError. We model a fragment of ECMAScript pattern well-formedness:
balanced groups and classes, no dangling escape, and no quantifier without
a preceding atom. Matching is modelled exactly for metacharacter-free
(literal) patterns; well-formed patterns that do use metacharacters are
beyond every claim in this development and are modelled as matching
nowhere. -/

/-- Scan of a character class body up to the closing bracket. Fuel keeps the
recursion structural; each step consumes at least one character, so any fuel
of at least the list length is sufficient. -/
def scanClassGo : ℕ → List Char → Option (List Char)
  | 0, _ => none
  | _ + 1, [] => none
  | fuel + 1, c :: r =>
    if c = ']' then some r
    else if c = '\\' then
      match r with
      | [] => none
      | _ :: r' => scanClassGo fuel r'
    else scanClassGo fuel r

/-- Well-formedness scan for the modelled ECMAScript pattern fragment.
The third argument is the open-group depth, the fourth records whether a
quantifiable atom precedes the current position. Fuel keeps the recursion
structural and any fuel of at least the list length plus one suffices. -/
def regexOkGo : ℕ → List Char → ℕ → Bool → Bool
  | 0, _, _, _ => false
  | _ + 1, [], depth, _ => depth = 0
  | fuel + 1, c :: r, depth, canQ =>
    if c = '\\' then
      match r with
      | [] => false
      | _ :: r' => regexOkGo fuel r' depth true
    else if c = '(' then regexOkGo fuel r (depth + 1) false
    else if c = ')' then decide (0 < depth) && regexOkGo fuel r (depth - 1) true
    else if c = '[' then
      match scanClassGo (r.length + 1) r with
      | none => false
      | some r' => regexOkGo fuel r' depth true
    else if c = '*' ∨ c = '+' ∨ c = '?' then canQ && regexOkGo fuel r depth false
    else if c = '|' ∨ c = '^' ∨ c = '$' then regexOkGo fuel r depth false
    else regexOkGo fuel r depth true

/-- Well-formedness of a pattern in the modelled ECMAScript fragment. -/
def regexOk (p : List Char) : Bool := regexOkGo (p.length + 1) p 0 false

/-- ECMAScript regex metacharacters; a pattern avoiding all of them matches
as a literal string. -/
def regexSpecials : List Char :=
  ['\\', '^', '$', '.', '|', '?', '*', '+', '(', ')', '[', ']', '\x7b', '\x7d']

def isLiteralPattern (p : List Char) : Bool := p.all (fun c => !(regexSpecials.contains c))

/-- Model of body.match(new RegExp(pattern, "gi")).length for an already
lowercased body and pattern: fails with a SyntaxError on an ill-formed
pattern, counts literal occurrences for metacharacter-free patterns. -/
def jsRegexCount (p t : List Char) : Except String ℕ :=
  if regexOk p then
    if isLiteralPattern p then Except.ok (countOcc p t) else Except.ok 0
  else Except.error "SyntaxError: Invalid regular expression"

deriving instance DecidableEq for Except

/-! ## Data model (types/search-types.ts) -/

/-- One fuzzy-match evidence entry, as in the SearchResult matchDetails type. -/
structure FuzzyMatch where
  original : String
  matched : String
  score : ℚ
deriving DecidableEq

/-- Match evidence accumulated by the four signal scorers (the inline
matchDetails type of SearchResult in search-types.ts). -/
structure MatchDetails where
  titleMatches : List String
  bodyMatches : List String
  labelMatches : List String
  numberMatch : Bool
  similarityScore : ℚ
  fuzzyMatches : List FuzzyMatch
deriving DecidableEq

structure SearchResult where
  visible : Bool
  score : ℚ
  matchDetails : MatchDetails
deriving DecidableEq

structure SearchWeights where
  title : ℚ
  body : ℚ
  fuzzy : ℚ
  meta : ℚ
  vector : ℚ

structure SearchConfig where
  fuzzySearchThreshold : ℚ
  exactMatchBonus : ℚ
  fuzzyMatchWeight : ℚ

/-- Issue record (github-types). A label is modelled as some name when it is
an object with a usable (string) name field, and none otherwise; the source
checks typeof label === "object" && label.name before using it, and an empty
name string is falsy in JavaScript, so it is excluded by that check too. -/
structure GitHubIssue where
  id : ℕ
  number : ℕ
  title : String
  body : Option String
  labels : List (Option String)
deriving DecidableEq

/-! ## StringSimilarity -/

namespace StringSimilarity

/-- One dynamic-programming row update for Levenshtein distance: given the
previous row (distances for all prefixes of b against a fixed prefix of a),
the next character c of a, and the value to the left in the new row. -/
def levNextRow (c : Char) : List Char → List ℕ → ℕ → List ℕ
  | [], _, _ => []
  | bj :: b', row, left =>
    match row with
    | [] => []
    | diag :: row' =>
      let up := row'.headD 0
      let cur := if c = bj then diag else 1 + min diag (min left up)
      cur :: levNextRow c b' row' cur

def levenshteinGo (b : List Char) : List Char → List ℕ → ℕ → ℕ
  | [], row, _ => row.getLastD 0
  | c :: a', row, i => levenshteinGo b a' ((i + 1) :: levNextRow c b row (i + 1)) (i + 1)

/-- Levenshtein edit distance by the standard row-by-row dynamic program. -/
def levenshtein (a b : List Char) : ℕ :=
  levenshteinGo b a (List.range (b.length + 1)) 0

/-- Modelled from the spec: the StringSimilarity module imported by the
SearchScorer is not part of the provided sources; §4.1 specifies a
normalized edit-distance-class metric, case-insensitive, with value
1 − distance / max(len a, len b) in [0,1]. For two empty strings the
quotient 0 / 0 is 0 under the rational convention, giving similarity 1
as required by similarity(x, x) = 1. -/
def calculate (a b : String) : ℚ :=
  let x := jsToLowerList a.toList
  let y := jsToLowerList b.toList
  1 - (levenshtein x y : ℚ) / (max x.length y.length : ℚ)

end StringSimilarity

/-! ## SearchScorer (search/search-scorer.ts) -/

namespace SearchScorer

/-- Joined query phrase searchTerms.join(" ") as a character list. -/
def joinSpace (terms : List String) : List Char :=
  List.intercalate [' '] (terms.map String.toList)

def calculateTitleScore (cfg : SearchConfig) (issue : GitHubIssue)
    (searchTerms : List String) (matchDetails : MatchDetails) : ℚ × MatchDetails :=
  let title := jsToLowerList issue.title.toList
  let r := searchTerms.foldl (fun (acc : ℚ × MatchDetails) term =>
    if containsList term.toList title then
      let acc' := (acc.1 + cfg.exactMatchBonus,
        { acc.2 with titleMatches := acc.2.titleMatches ++ [term] })
      if term.toList.isPrefixOf title then (acc'.1 + 1/2, acc'.2) else acc'
    else acc) (0, matchDetails)
  let score := if 1 < searchTerms.length ∧ containsList (joinSpace searchTerms) title
    then r.1 + 1 else r.1
  (min score 3, r.2)

/-- Lazily matched fenced code blocks of the body, as produced by a global
match of three backticks, a minimal body, and three closing backticks. -/
def fence : List Char := [Char.ofNat 96, Char.ofNat 96, Char.ofNat 96]

/-- Locate the first occurrence of p: returns the text before it and the
text after it. -/
def splitOnList (p : List Char) : List Char → Option (List Char × List Char)
  | [] => none
  | c :: t' =>
    if p.isPrefixOf (c :: t') then some ([], (c :: t').drop p.length)
    else (splitOnList p t').map (fun q => (c :: q.1, q.2))

def extractCodeBlocksGo : ℕ → List Char → List (List Char)
  | 0, _ => []
  | fuel + 1, t =>
    match splitOnList fence t with
    | none => []
    | some (_, rest1) =>
      match splitOnList fence rest1 with
      | none => []
      | some (content, rest2) =>
        (fence ++ content ++ fence) :: extractCodeBlocksGo fuel rest2

/-- Fenced code blocks of a text; fuel keeps the recursion structural and
the initial fuel is sufficient because every block consumes characters. -/
def extractCodeBlocks (t : List Char) : List (List Char) :=
  extractCodeBlocksGo (t.length + 1) t

def calculateBodyScore (issue : GitHubIssue) (searchTerms : List String)
    (matchDetails : MatchDetails) : Except String (ℚ × MatchDetails) := do
  let body := jsToLowerList (issue.body.getD "").toList
  let r ← searchTerms.foldlM (fun (acc : ℚ × MatchDetails) term => do
    let n ← jsRegexCount term.toList body
    let acc := if 0 < n then
        (acc.1 + min ((n : ℚ) / 2) 1,
         { acc.2 with bodyMatches := acc.2.bodyMatches ++ [term] })
      else acc
    let blocks := extractCodeBlocks body
    let s := blocks.foldl (fun s blk =>
      if containsList term.toList (jsToLowerList blk) then s + 1/2 else s) acc.1
    pure (s, acc.2)) ((0 : ℚ), matchDetails)
  pure (min r.1 2, r.2)

/-- Purely numeric test /^\d+$/ on a term. -/
def isNumericString (t : String) : Bool := !t.toList.isEmpty && t.toList.all Char.isDigit

def calculateMetaScore (issue : GitHubIssue) (searchTerms : List String)
    (matchDetails : MatchDetails) : ℚ × MatchDetails :=
  let numberTerm := searchTerms.find? isNumericString
  let start : ℚ × MatchDetails :=
    match numberTerm with
    | some t =>
      if Nat.repr issue.number = t then (2, { matchDetails with numberMatch := true })
      else (0, matchDetails)
    | none => (0, matchDetails)
  searchTerms.foldl (fun acc term =>
    issue.labels.foldl (fun (acc : ℚ × MatchDetails) lbl =>
      match lbl with
      | some name =>
        if name ≠ "" ∧ containsList term.toList (jsToLowerList name.toList) then
          (acc.1 + 1/2, { acc.2 with labelMatches := acc.2.labelMatches ++ [name] })
        else acc
      | none => acc) acc) start

/-- Content tokenizer: lowercase, replace every character outside \w and \s
by a space, split on whitespace, keep words longer than two characters. -/
def tokenizeContent (content : List Char) : List String :=
  (((splitNonWs ((jsToLowerList content).map
      (fun c => if c.isAlphanum ∨ c = '_' ∨ c.isWhitespace then c else ' '))).filter
    (fun w => 2 < w.length)).map String.mk)

/-- Evidence push performed when a fuzzy best match is recorded. -/
def pushFuzzy (d : MatchDetails) (t w : String) (s : ℚ) : MatchDetails :=
  { d with fuzzyMatches := d.fuzzyMatches ++ [⟨t, w, s⟩] }

/-- Per-term body of the fuzzy scoring loop: fold the content words keeping
the best word whose similarity is strictly above the threshold and strictly
above the best so far, then record it if one was found. -/
def fuzzyTermStep (cfg : SearchConfig) (contentWords : List String)
    (acc : ℚ × MatchDetails) (searchTerm : String) : ℚ × MatchDetails :=
  let bestMatch := contentWords.foldl (fun (b : String × ℚ) word =>
    let similarity := StringSimilarity.calculate searchTerm word
    if cfg.fuzzySearchThreshold < similarity ∧ b.2 < similarity then (word, similarity)
    else b) ("", 0)
  if 0 < bestMatch.2 then
    (acc.1 + bestMatch.2 * cfg.fuzzyMatchWeight, pushFuzzy acc.2 searchTerm bestMatch.1 bestMatch.2)
  else acc

def calculateFuzzyScore (cfg : SearchConfig) (content : List Char)
    (searchTerms : List String) (matchDetails : MatchDetails) : ℚ × MatchDetails :=
  let contentWords := tokenizeContent content
  let r := searchTerms.foldl (fuzzyTermStep cfg contentWords) (0, matchDetails)
  (min r.1 2, r.2)

end SearchScorer

/-! ## Stable descending sort

Models Array.prototype.sort with the comparator (a, b) => keyB - keyA:
the result is ordered by descending key and, since ECMAScript sort is
stable, entries with equal keys keep their original relative order. -/

def insertDescBy {α : Type} (key : α → ℚ) (x : α) : List α → List α
  | [] => [x]
  | y :: ys => if key y ≤ key x then x :: y :: ys else y :: insertDescBy key x ys

def sortDescBy {α : Type} (key : α → ℚ) : List α → List α
  | [] => []
  | x :: xs => insertDescBy key x (sortDescBy key xs)

/-! ## VectorSearch (search/vector-search.ts)

The transformer encoder is an external capability; it is modelled as an
optional pure function from text to a rational vector (none models the
not-yet-initialized encoder). Math.sqrt is modelled by the rational
square root Rat.sqrt, which is exact on perfect squares; no theorem in
this development depends on its value elsewhere. The rational convention
x / 0 = 0 models the NaN-to-zero guard (dotProduct / (normA * normB) || 0)
in the only reachable degenerate case, where the dot product is itself 0. -/

structure VectorSearchState where
  documentVectors : List (ℕ × List ℚ)
  encoder : Option (String → List ℚ)

namespace VectorSearch

def preprocessText (t : String) : String :=
  String.mk (jsTrimList (collapseWs (jsToLowerList t.toList)))

def cosineSimilarity (vecA vecB : List ℚ) : ℚ :=
  let dotProduct := vecA.enum.foldl (fun s p => s + p.2 * vecB.getD p.1 0) 0
  let normA := Rat.sqrt (vecA.foldl (fun s x => s + x * x) 0)
  let normB := Rat.sqrt (vecA.enum.foldl (fun s p => s + vecB.getD p.1 0 * vecB.getD p.1 0) 0)
  let similarity := dotProduct / (normA * normB)
  max 0 (min 1 similarity)

/-- Embedding similarity of a stored document against query terms encoded
one by one, summed and renormalized. Out-of-range vector components are
read as 0 (the encoder produces fixed-dimension vectors, so all vectors
in any reachable state share one length). -/
def getSimilarityScore (st : VectorSearchState) (documentId : ℕ)
    (queryTerms : List String) : Except String ℚ :=
  if (st.documentVectors.lookup documentId).isNone || queryTerms.isEmpty then Except.ok 0
  else
    match st.encoder with
    | none => Except.error "Encoder not initialized"
    | some encoder =>
      let queryEmbeddings := queryTerms.map (fun term => encoder (preprocessText term))
      let dim := (queryEmbeddings.headD []).length
      let combined := queryEmbeddings.foldl
        (fun acc e => acc.enum.map (fun p => p.2 + e.getD p.1 0)) (List.replicate dim 0)
      let norm := Rat.sqrt (combined.foldl (fun s v => s + v * v) 0)
      let combinedVector := if 0 < norm then combined.map (fun v => v / norm) else combined
      match st.documentVectors.lookup documentId with
      | none => Except.error "Document not found"
      | some docVector => Except.ok (cosineSimilarity combinedVector docVector)

/-- Scores of every stored vector against the encoded whole query, in the
storage (insertion) order of the vector map. -/
def scoredEntries (st : VectorSearchState) (encoder : String → List ℚ)
    (query : String) : List (ℕ × ℚ) :=
  let queryVector := encoder (preprocessText query)
  st.documentVectors.map (fun p => (p.1, cosineSimilarity queryVector p.2))

/-- Top-K semantic search: score every stored vector, sort by descending
score with the stable comparator (a, b) => b.score - a.score, and take the
first topK entries. -/
def search (st : VectorSearchState) (query : String) (topK : ℕ) :
    Except String (List (ℕ × ℚ)) :=
  match st.encoder with
  | none => Except.error "Encoder not initialized"
  | some encoder =>
    Except.ok ((sortDescBy Prod.snd (scoredEntries st encoder query)).take topK)

end VectorSearch

/-! ## IssueSearch (issue-search.ts) -/

namespace IssueSearch

/-- The fixed per-signal weights (source literals 0.3, 0.2, 0.2, 0.1, 0.2). -/
def weights : SearchWeights :=
  { title := 3/10, body := 2/10, fuzzy := 2/10, meta := 1/10, vector := 2/10 }

/-- The fixed configuration (source literals 0.7, 1.0, 0.7). -/
def config : SearchConfig :=
  { fuzzySearchThreshold := 7/10, exactMatchBonus := 1, fuzzyMatchWeight := 7/10 }

/-- The engine environment: the task manager's issue store and the vector
index, both read-only during one query. -/
structure SearchEnv where
  taskIssues : List (ℕ × GitHubIssue)
  vectorState : VectorSearchState

def getGitHubIssueById (env : SearchEnv) (issueId : ℕ) : Option GitHubIssue :=
  env.taskIssues.lookup issueId

def emptyMatchDetails : MatchDetails := ⟨[], [], [], false, 0, []⟩

def createEmptyResult (visible : Bool := true) : SearchResult :=
  { visible := visible, score := if visible then 1 else 0, matchDetails := emptyMatchDetails }

/-- Concatenated searchable text: title, body or empty, label names joined
by spaces (labels without a usable name contribute an empty string), all
lowercased. -/
def getSearchableContent (issue : GitHubIssue) : List Char :=
  jsToLowerList (issue.title.toList ++ [' '] ++ (issue.body.getD "").toList ++ [' '] ++
    SearchScorer.joinSpace (issue.labels.map (fun l => String.mk (l.getD "").toList)))

/-- Query tokenizer: split on whitespace, drop empty fragments, lowercase. -/
def preprocessSearchTerms (searchText : List Char) : List String :=
  (splitNonWs searchText).map (fun w => String.mk (jsToLowerList w))

/-- Per-issue relevance: run the four signal scorers threading the evidence
accumulator in source order (title, body, fuzzy, meta), fetch the vector
similarity, combine with the fixed weights, and zero the score of an
invisible result. A thrown body-scorer or vector error aborts this issue's
computation (the promise rejects). -/
def calculateIssueRelevance (env : SearchEnv) (issue : GitHubIssue)
    (searchTerms : List String) : Except String SearchResult := do
  let searchableContent := getSearchableContent issue
  let t := SearchScorer.calculateTitleScore config issue searchTerms emptyMatchDetails
  let b ← SearchScorer.calculateBodyScore issue searchTerms t.2
  let f := SearchScorer.calculateFuzzyScore config searchableContent searchTerms b.2
  let m := SearchScorer.calculateMetaScore issue searchTerms f.2
  let v ← VectorSearch.getSimilarityScore env.vectorState issue.id searchTerms
  let matchDetails := { m.2 with similarityScore := v }
  let totalScore := t.1 * weights.title + b.1 * weights.body + f.1 * weights.fuzzy +
    m.1 * weights.meta + v * weights.vector
  let isVisible := decide (0 < totalScore) || matchDetails.numberMatch
  pure { visible := isVisible, score := if isVisible then totalScore else 0,
         matchDetails := matchDetails }

/-- Entry computed for one requested id: a missing issue yields the explicit
invisible empty result; a scoring error yields no entry at all (the rejected
promise never reaches results.set). -/
def resultFor (env : SearchEnv) (searchTerms : List String) (issueId : ℕ) :
    Option SearchResult :=
  match getGitHubIssueById env issueId with
  | none => some (createEmptyResult false)
  | some issue => (calculateIssueRelevance env issue searchTerms).toOption

/-- Model of Map.prototype.set on an association list: overwrite in place
if the key is present, append otherwise. -/
def mapSet (m : List (ℕ × SearchResult)) (k : ℕ) (v : SearchResult) :
    List (ℕ × SearchResult) :=
  if m.any (fun p => decide (p.1 = k)) then m.map (fun p => if p.1 = k then (k, v) else p)
  else m ++ [(k, v)]

/-- Model of Map.prototype.get on an association list. -/
def mapGet (k : ℕ) : List (ℕ × SearchResult) → Option SearchResult
  | [] => none
  | (a, v) :: m => if k = a then some v else mapGet k m

def processIds (f : ℕ → Option SearchResult) (ids : List ℕ) : List (ℕ × SearchResult) :=
  ids.foldl (fun m i =>
    match f i with
    | some v => mapSet m i v
    | none => m) []

/-- The search loop with an explicit task-completion order: the source
dispatches one un-awaited async computation per requested id, so entries
reach the Map in promise-completion order; order is any permutation of the
requested ids. Each entry's value depends only on its id, which is what
makes the populated mapping order-independent (the determinism claim). -/
def searchWithOrder (env : SearchEnv) (searchText : String) (issueIds : List ℕ)
    (order : List ℕ) : List (ℕ × SearchResult) :=
  let filterText := jsTrimList (jsToLowerList searchText.toList)
  if filterText.isEmpty then processIds (fun _ => some (createEmptyResult true)) issueIds
  else processIds (resultFor env (preprocessSearchTerms filterText)) order

/-- The search entry point, with the canonical in-request-order completion. -/
def search (env : SearchEnv) (searchText : String) (issueIds : List ℕ) :
    List (ℕ × SearchResult) :=
  searchWithOrder env searchText issueIds issueIds

/-- Discounted-cumulative-gain accumulator over an already-extracted score
list, with gain 2^score - 1 and discount log2(rank + 2). -/
noncomputable def dcgAux : List ℚ → ℕ → ℝ
  | [], _ => 0
  | s :: rest, i => ((2 : ℝ) ^ (s : ℝ) - 1) / Real.logb 2 ((i : ℝ) + 2) + dcgAux rest (i + 1)

/-- NDCG-style diagnostic: visible scores sorted descending, DCG divided by
the DCG of the sorted copy of the same list. -/
noncomputable def calculateNDCGScore (results : List (ℕ × SearchResult)) : ℝ :=
  let scores := sortDescBy id (((results.map Prod.snd).filter (fun r => r.visible)).map
    (fun r => r.score))
  if scores.isEmpty then 0
  else
    let dcg := dcgAux scores 0
    let idcg := dcgAux (sortDescBy id scores) 0
    if idcg = 0 then 0 else dcg / idcg

end IssueSearch

/-! ## Spec-side predicates and concrete instances used by the verification -/

/-- Best similarity of a term over a list of content words (the claim's
"best content-word similarity"). -/
def bestSim (term : String) (words : List String) : ℚ :=
  (words.map (StringSimilarity.calculate term)).foldl max 0

/-- Ordering asserted by the top-K claim: descending score with ties broken
by ascending id. -/
def descendingTiesById (l : List (ℕ × ℚ)) : Prop :=
  l.Pairwise (fun a b => b.2 < a.2 ∨ (a.2 = b.2 ∧ a.1 < b.1))

/-- An environment with no issues and no vectors. -/
def sampleEnv : IssueSearch.SearchEnv := ⟨[], ⟨[], none⟩⟩

/-- An issue whose number is 42 and whose text matches nothing numeric. -/
def issueNum42 : GitHubIssue := ⟨1, 42, "xyzzy", none, []⟩

def envNum42 : IssueSearch.SearchEnv := ⟨[(1, issueNum42)], ⟨[], none⟩⟩

/-- An issue with a body, used to exercise the body scorer. -/
def issueParen : GitHubIssue := ⟨1, 1, "t", some "hello", []⟩

def envParen : IssueSearch.SearchEnv := ⟨[(1, issueParen)], ⟨[], none⟩⟩

/-- A constant encoder producing the one-dimensional unit vector. -/
def unitEncoder : String → List ℚ := fun _ => [1]

/-- Vector store holding ids 5 then 3 (insertion order), identical vectors. -/
def twoDocState : VectorSearchState := ⟨[(5, [1]), (3, [1])], some unitEncoder⟩

/-- Vector store holding one unit vector under id 1. -/
def oneDocState : VectorSearchState := ⟨[(1, [1])], some unitEncoder⟩

/-- A result mapping with one visible entry of score 0. -/
def zeroScoreResults : List (ℕ × SearchResult) :=
  [(1, ⟨true, 0, IssueSearch.emptyMatchDetails⟩)]

/-- A result mapping with one visible entry of positive score. -/
def oneScoreResults : List (ℕ × SearchResult) :=
  [(1, ⟨true, 1, IssueSearch.emptyMatchDetails⟩)]

/-! ## Lookup lemmas for the result-map model -/

namespace IssueSearch

theorem mapGet_mapOverwrite (k : ℕ) (v : SearchResult) :
    ∀ m : List (ℕ × SearchResult),
      mapGet k (m.map (fun p => if p.1 = k then (k, v) else p)) =
        if m.any (fun p => decide (p.1 = k)) then some v else mapGet k m := by
  intro m
  induction m with
  | nil => simp [mapGet]
  | cons hd tl ih =>
    obtain ⟨a, b⟩ := hd
    simp only [List.map_cons, List.any_cons]
    by_cases h : a = k
    · subst h
      rw [if_pos rfl]
      simp [mapGet, ih]
    · rw [if_neg h]
      have hor : ((decide (a = k) || tl.any fun p => decide (p.1 = k)) = true) =
          ((tl.any fun p => decide (p.1 = k)) = true) := by simp [h]
      simp only [mapGet, hor, ih]
      have : ¬ k = a := Ne.symm h
      simp [this]

theorem mapGet_none_of_any_eq_false (k : ℕ) :
    ∀ m : List (ℕ × SearchResult), m.any (fun p => decide (p.1 = k)) = false →
      mapGet k m = none := by
  intro m
  induction m with
  | nil => simp [mapGet]
  | cons hd tl ih =>
    obtain ⟨a, b⟩ := hd
    intro h
    simp only [List.any_cons, Bool.or_eq_false_iff, decide_eq_false_iff_not] at h
    simp [mapGet, Ne.symm h.1, ih (by simpa using h.2)]

theorem mapGet_append_single (k k' : ℕ) (v : SearchResult) :
    ∀ m : List (ℕ × SearchResult),
      mapGet k' (m ++ [(k, v)]) =
        ((mapGet k' m).orElse (fun _ => if k' = k then some v else none)) := by
  intro m
  induction m with
  | nil => simp [mapGet, Option.orElse]
  | cons hd tl ih =>
    obtain ⟨a, b⟩ := hd
    by_cases h : k' = a
    · simp [mapGet, h, Option.orElse]
    · simp [mapGet, h, ih, Option.orElse]

theorem mapGet_mapSet_self (m : List (ℕ × SearchResult)) (k : ℕ) (v : SearchResult) :
    mapGet k (mapSet m k v) = some v := by
  unfold mapSet
  by_cases h : m.any (fun p => decide (p.1 = k))
  · simp [h, mapGet_mapOverwrite]
  · rw [if_neg (by simpa using h)]
    simp only [Bool.not_eq_true] at h
    simp [mapGet_append_single, mapGet_none_of_any_eq_false k m h, Option.orElse]

theorem mapGet_mapSet_ne (m : List (ℕ × SearchResult)) (k k' : ℕ) (v : SearchResult)
    (h : k' ≠ k) : mapGet k' (mapSet m k v) = mapGet k' m := by
  unfold mapSet
  by_cases ha : m.any (fun p => decide (p.1 = k))
  · rw [if_pos ha]
    clear ha
    induction m with
    | nil => simp [mapGet]
    | cons hd tl ih =>
      obtain ⟨a, b⟩ := hd
      simp only [List.map_cons]
      by_cases hk : a = k
      · subst hk
        rw [if_pos rfl]
        simp [mapGet, h, ih]
      · rw [if_neg hk]
        by_cases hk' : k' = a
        · simp [mapGet, hk']
        · simp [mapGet, hk', ih]
  · rw [if_neg (by simpa using ha)]
    simp only [mapGet_append_single, if_neg h]
    cases mapGet k' m <;> simp [Option.orElse]

theorem mapGet_processIds_go (f : ℕ → Option SearchResult) (k : ℕ) :
    ∀ (ids : List ℕ) (m : List (ℕ × SearchResult)),
      mapGet k (ids.foldl (fun m i =>
          match f i with
          | some v => mapSet m i v
          | none => m) m) =
        if k ∈ ids ∧ (f k).isSome then f k else mapGet k m := by
  intro ids
  induction ids with
  | nil => intro m; simp
  | cons i rest ih =>
    intro m
    simp only [List.foldl_cons, ih, List.mem_cons]
    by_cases hk : k = i
    · subst hk
      cases hf : f k with
      | none => simp [hf]
      | some v =>
        by_cases hrest : k ∈ rest ∧ (f k).isSome
        · simp [hrest, hf]
        · simp only [hf, Option.isSome_some, and_true] at hrest
          simp [hrest, hf, mapGet_mapSet_self]
    · cases hf : f i with
      | none => simp [hk]
      | some v => simp [hk, mapGet_mapSet_ne _ _ _ _ hk]

theorem mapGet_processIds (f : ℕ → Option SearchResult) (k : ℕ) (ids : List ℕ) :
    mapGet k (processIds f ids) =
      if k ∈ ids ∧ (f k).isSome then f k else none := by
  unfold processIds
  rw [mapGet_processIds_go]
  simp [mapGet]

end IssueSearch

/-! ## Shape of a successfully computed relevance result -/

theorem calculateIssueRelevance_shape (env : IssueSearch.SearchEnv) (issue : GitHubIssue)
    (terms : List String) (r : SearchResult)
    (h : IssueSearch.calculateIssueRelevance env issue terms = Except.ok r) :
    (r.visible = false → r.score = 0) ∧
    (r.matchDetails.numberMatch = true → r.visible = true) := by
  unfold IssueSearch.calculateIssueRelevance at h
  cases hb : SearchScorer.calculateBodyScore issue terms
      (SearchScorer.calculateTitleScore IssueSearch.config issue terms
        IssueSearch.emptyMatchDetails).2 with
  | error e => simp [hb, Bind.bind, Except.bind] at h
  | ok b =>
    cases hv : VectorSearch.getSimilarityScore env.vectorState issue.id terms with
    | error e => simp [hb, hv, Bind.bind, Except.bind] at h
    | ok v =>
      simp only [hb, hv, Bind.bind, Except.bind, pure, Except.pure, Except.ok.injEq] at h
      subst h
      constructor
      · intro hvis
        simp only at hvis
        simp [hvis]
      · intro hnum
        simp only at hnum
        simp [hnum]

/-- C1: for fixed inputs (issue store, vector state, query, requested ids)
the populated result mapping does not depend on the order in which the
per-id asynchronous scoring tasks complete: under any completion order
(any permutation of the requested ids) every key is bound to the same
value as in the canonical run, so running search twice with identical
inputs and no index mutation yields identical SearchResult mappings. -/
theorem search_order_independent (env : IssueSearch.SearchEnv) (searchText : String)
    (issueIds order : List ℕ) (h : order.Perm issueIds) (k : ℕ) :
    IssueSearch.mapGet k (IssueSearch.searchWithOrder env searchText issueIds order) =
      IssueSearch.mapGet k (IssueSearch.search env searchText issueIds) := by
  unfold IssueSearch.search IssueSearch.searchWithOrder
  by_cases he : jsTrimList (jsToLowerList searchText.toList) = []
  · rw [if_pos (by rw [he]; rfl), if_pos (by rw [he]; rfl)]
  · have hcond : ¬ ((jsTrimList (jsToLowerList searchText.toList)).isEmpty = true) := by
      simpa [List.isEmpty_iff] using he
    rw [if_neg hcond, if_neg hcond, IssueSearch.mapGet_processIds,
      IssueSearch.mapGet_processIds]
    simp [h.mem_iff]

theorem search_order_independent_witness :
    IssueSearch.mapGet 1 (IssueSearch.searchWithOrder sampleEnv "a" [1, 2] [2, 1]) =
      IssueSearch.mapGet 1 (IssueSearch.search sampleEnv "a" [1, 2]) :=
  search_order_independent sampleEnv "a" [1, 2] [2, 1] (by decide) 1

/-- C3: if the query is empty after lowercasing and trimming, search gives
every requested id the neutral browse result: visible with score 1 and
empty match evidence. -/
theorem search_empty_query_neutral (env : IssueSearch.SearchEnv) (searchText : String)
    (issueIds : List ℕ) (issueId : ℕ)
    (hq : jsTrimList (jsToLowerList searchText.toList) = [])
    (hm : issueId ∈ issueIds) :
    IssueSearch.mapGet issueId (IssueSearch.search env searchText issueIds) =
      some { visible := true, score := 1, matchDetails := IssueSearch.emptyMatchDetails } := by
  unfold IssueSearch.search IssueSearch.searchWithOrder
  rw [if_pos (by rw [hq]; rfl), IssueSearch.mapGet_processIds]
  simp [hm, IssueSearch.createEmptyResult]

theorem search_empty_query_neutral_witness :
    IssueSearch.mapGet 7 (IssueSearch.search sampleEnv "   " [7]) =
      some { visible := true, score := 1, matchDetails := IssueSearch.emptyMatchDetails } :=
  search_empty_query_neutral sampleEnv "   " [7] 7 (by decide) (by decide)

/-- C2: every SearchResult produced by search satisfies the visibility
invariant: an invisible result has score 0, whatever the individual
sub-scores were. -/
theorem search_invisible_score_zero (env : IssueSearch.SearchEnv) (searchText : String)
    (issueIds : List ℕ) (k : ℕ) (r : SearchResult)
    (hr : IssueSearch.mapGet k (IssueSearch.search env searchText issueIds) = some r)
    (hv : r.visible = false) : r.score = 0 := by
  unfold IssueSearch.search IssueSearch.searchWithOrder at hr
  by_cases he : jsTrimList (jsToLowerList searchText.toList) = []
  · rw [if_pos (by rw [he]; rfl), IssueSearch.mapGet_processIds] at hr
    split at hr
    · simp only [Option.some.injEq] at hr
      rw [← hr] at hv
      simp [IssueSearch.createEmptyResult] at hv
    · exact absurd hr (by simp)
  · rw [if_neg (by simpa [List.isEmpty_iff] using he), IssueSearch.mapGet_processIds] at hr
    split at hr
    · unfold IssueSearch.resultFor at hr
      cases hi : IssueSearch.getGitHubIssueById env k with
      | none =>
        rw [hi] at hr
        simp only [Option.some.injEq] at hr
        rw [← hr]
        simp [IssueSearch.createEmptyResult]
      | some issue =>
        rw [hi] at hr
        simp only [] at hr
        cases hc : IssueSearch.calculateIssueRelevance env issue
            (IssueSearch.preprocessSearchTerms (jsTrimList (jsToLowerList searchText.toList))) with
        | error e => rw [hc] at hr; simp [Except.toOption] at hr
        | ok r' =>
          rw [hc] at hr
          simp only [Except.toOption, Option.some.injEq] at hr
          rw [hr] at hc
          exact (calculateIssueRelevance_shape env issue _ r hc).1 hv
    · exact absurd hr (by simp)

theorem search_invisible_score_zero_witness :
    (⟨false, 0, IssueSearch.emptyMatchDetails⟩ : SearchResult).score = 0 :=
  search_invisible_score_zero sampleEnv "q" [3] 3 ⟨false, 0, IssueSearch.emptyMatchDetails⟩
    (by decide) rfl

/-- C5 (counterexample): metadata scoring inspects only the first purely
numeric query term. For issue number 42 and query "7 42", the term "42" is
purely numeric and equals the number, yet the exact-number flag stays
false, no 2.0 is added, and the record is invisible. -/
theorem numberMatch_any_term_counterexample :
    IssueSearch.preprocessSearchTerms (jsTrimList (jsToLowerList "7 42".toList)) = ["7", "42"] ∧
    "42" ∈ ["7", "42"] ∧
    SearchScorer.isNumericString "42" = true ∧
    Nat.repr issueNum42.number = "42" ∧
    (SearchScorer.calculateMetaScore issueNum42 ["7", "42"]
      IssueSearch.emptyMatchDetails).2.numberMatch = false ∧
    (SearchScorer.calculateMetaScore issueNum42 ["7", "42"]
      IssueSearch.emptyMatchDetails).1 = 0 ∧
    IssueSearch.mapGet 1 (IssueSearch.search envNum42 "7 42" [1]) =
      some ⟨false, 0, IssueSearch.emptyMatchDetails⟩ := by
  have hfz : SearchScorer.calculateFuzzyScore IssueSearch.config
      (IssueSearch.getSearchableContent issueNum42) ["7", "42"] IssueSearch.emptyMatchDetails
      = (0, IssueSearch.emptyMatchDetails) := by
    have hw : SearchScorer.tokenizeContent (IssueSearch.getSearchableContent issueNum42)
        = ["xyzzy"] := by decide
    have e1 : StringSimilarity.levenshtein (jsToLowerList "7".toList)
        (jsToLowerList "xyzzy".toList) = 5 := by decide
    have e2 : StringSimilarity.levenshtein (jsToLowerList "42".toList)
        (jsToLowerList "xyzzy".toList) = 5 := by decide
    have hl1 : (jsToLowerList "7".toList).length = 1 := by decide
    have hl2 : (jsToLowerList "42".toList).length = 2 := by decide
    have hl3 : (jsToLowerList "xyzzy".toList).length = 5 := by decide
    have h1 : StringSimilarity.calculate "7" "xyzzy" = 0 := by
      simp only [StringSimilarity.calculate, e1, hl1, hl3]
      norm_num
    have h2 : StringSimilarity.calculate "42" "xyzzy" = 0 := by
      simp only [StringSimilarity.calculate, e2, hl2, hl3]
      norm_num
    simp only [SearchScorer.calculateFuzzyScore, hw]
    norm_num [SearchScorer.fuzzyTermStep, h1, h2, min_def]
  have ht : SearchScorer.calculateTitleScore IssueSearch.config issueNum42 ["7", "42"]
      IssueSearch.emptyMatchDetails = (0, IssueSearch.emptyMatchDetails) := by decide
  have hb : SearchScorer.calculateBodyScore issueNum42 ["7", "42"]
      IssueSearch.emptyMatchDetails = Except.ok (0, IssueSearch.emptyMatchDetails) := by decide
  have hm : SearchScorer.calculateMetaScore issueNum42 ["7", "42"]
      IssueSearch.emptyMatchDetails = (0, IssueSearch.emptyMatchDetails) := by decide
  have hv : VectorSearch.getSimilarityScore envNum42.vectorState issueNum42.id ["7", "42"]
      = Except.ok 0 := by decide
  have hrel : IssueSearch.calculateIssueRelevance envNum42 issueNum42 ["7", "42"]
      = Except.ok ⟨false, 0, IssueSearch.emptyMatchDetails⟩ := by
    unfold IssueSearch.calculateIssueRelevance
    simp only [ht, hb, hfz, hm, hv, Bind.bind, Except.bind]
    norm_num [IssueSearch.weights, pure, Except.pure]
    decide
  refine ⟨by decide, by decide, by decide, by decide, by rw [hm]; decide, by rw [hm], ?_⟩
  unfold IssueSearch.search IssueSearch.searchWithOrder
  rw [if_neg (by decide), IssueSearch.mapGet_processIds]
  have hterms : IssueSearch.preprocessSearchTerms (jsTrimList (jsToLowerList "7 42".toList))
      = ["7", "42"] := by decide
  have hres : IssueSearch.resultFor envNum42
      (IssueSearch.preprocessSearchTerms (jsTrimList (jsToLowerList "7 42".toList))) 1
      = some ⟨false, 0, IssueSearch.emptyMatchDetails⟩ := by
    rw [hterms]
    unfold IssueSearch.resultFor
    rw [show IssueSearch.getGitHubIssueById envNum42 1 = some issueNum42 from by decide]
    simp only [hrel, Except.toOption]
  have hsome : (IssueSearch.resultFor envNum42
      (IssueSearch.preprocessSearchTerms (jsTrimList (jsToLowerList "7 42".toList)))
        1).isSome = true := by
    rw [hres]
    rfl
  rw [if_pos ⟨by decide, hsome⟩]
  exact hres

/-! ## Meta-scorer label fold invariants -/

theorem metaLabelsFold_invariant (issue : GitHubIssue) (term : String) :
    ∀ acc : ℚ × MatchDetails,
      ((issue.labels.foldl (fun (acc : ℚ × MatchDetails) lbl =>
          match lbl with
          | some name =>
            if name ≠ "" ∧ containsList term.toList (jsToLowerList name.toList) then
              (acc.1 + 1/2, { acc.2 with labelMatches := acc.2.labelMatches ++ [name] })
            else acc
          | none => acc) acc).2.numberMatch = acc.2.numberMatch) ∧
      acc.1 ≤ (issue.labels.foldl (fun (acc : ℚ × MatchDetails) lbl =>
          match lbl with
          | some name =>
            if name ≠ "" ∧ containsList term.toList (jsToLowerList name.toList) then
              (acc.1 + 1/2, { acc.2 with labelMatches := acc.2.labelMatches ++ [name] })
            else acc
          | none => acc) acc).1 := by
  induction issue.labels with
  | nil => intro acc; simp
  | cons lbl rest ih =>
    intro acc
    simp only [List.foldl_cons]
    cases lbl with
    | none => exact ih acc
    | some name =>
      simp only []
      by_cases hc : name ≠ "" ∧ containsList term.toList (jsToLowerList name.toList) = true
      · rw [if_pos hc]
        refine ⟨(ih _).1, le_trans (by linarith) (ih _).2⟩
      · rw [if_neg hc]
        exact ih acc

theorem metaScore_of_first_numeric (issue : GitHubIssue) (terms : List String)
    (d : MatchDetails)
    (hfind : terms.find? SearchScorer.isNumericString = some (Nat.repr issue.number)) :
    (SearchScorer.calculateMetaScore issue terms d).2.numberMatch = true ∧
    2 ≤ (SearchScorer.calculateMetaScore issue terms d).1 := by
  unfold SearchScorer.calculateMetaScore
  rw [hfind]
  simp only [if_true]
  generalize hstart : ((2 : ℚ), { d with numberMatch := true }) = start
  have hs2 : start.2.numberMatch = true := by rw [← hstart]
  have hs1 : (2 : ℚ) ≤ start.1 := by rw [← hstart]
  clear hstart hfind
  induction terms generalizing start with
  | nil => exact ⟨hs2, hs1⟩
  | cons t rest ih =>
    simp only [List.foldl_cons]
    refine ih _ ?_ ?_
    · exact (metaLabelsFold_invariant issue t start).1.trans hs2
    · exact le_trans hs1 (metaLabelsFold_invariant issue t start).2

theorem calculateIssueRelevance_numberMatch_source (env : IssueSearch.SearchEnv)
    (issue : GitHubIssue) (terms : List String) (r : SearchResult)
    (h : IssueSearch.calculateIssueRelevance env issue terms = Except.ok r) :
    ∃ d, r.matchDetails.numberMatch =
      (SearchScorer.calculateMetaScore issue terms d).2.numberMatch := by
  unfold IssueSearch.calculateIssueRelevance at h
  cases hb : SearchScorer.calculateBodyScore issue terms
      (SearchScorer.calculateTitleScore IssueSearch.config issue terms
        IssueSearch.emptyMatchDetails).2 with
  | error e => simp [hb, Bind.bind, Except.bind] at h
  | ok b =>
    cases hv : VectorSearch.getSimilarityScore env.vectorState issue.id terms with
    | error e => simp [hb, hv, Bind.bind, Except.bind] at h
    | ok v =>
      simp only [hb, hv, Bind.bind, Except.bind, pure, Except.pure, Except.ok.injEq] at h
      subst h
      exact ⟨(SearchScorer.calculateFuzzyScore IssueSearch.config
        (IssueSearch.getSearchableContent issue) terms b.2).2, rfl⟩

/-- C5 (amended): if the first purely numeric query term equals the
record's number rendered as a string, metadata scoring sets the
exact-number-match flag and adds 2.0 (the meta score is 2 plus a
nonnegative label contribution), and the record's search result is
visible even when no other signal matches. -/
theorem numberMatch_first_numeric_term (env : IssueSearch.SearchEnv) (issue : GitHubIssue)
    (terms : List String) (d : MatchDetails) (r : SearchResult)
    (hfind : terms.find? SearchScorer.isNumericString = some (Nat.repr issue.number))
    (hok : IssueSearch.calculateIssueRelevance env issue terms = Except.ok r) :
    (SearchScorer.calculateMetaScore issue terms d).2.numberMatch = true ∧
    (∃ labelPart : ℚ, 0 ≤ labelPart ∧
      (SearchScorer.calculateMetaScore issue terms d).1 = 2 + labelPart) ∧
    r.visible = true := by
  obtain ⟨hflag, hscore⟩ := metaScore_of_first_numeric issue terms d hfind
  refine ⟨hflag, ⟨(SearchScorer.calculateMetaScore issue terms d).1 - 2, by linarith, by ring⟩, ?_⟩
  obtain ⟨d', hd'⟩ := calculateIssueRelevance_numberMatch_source env issue terms r hok
  have := (metaScore_of_first_numeric issue terms d' hfind).1
  exact (calculateIssueRelevance_shape env issue terms r hok).2 (hd'.trans this)

theorem numberMatch_first_numeric_term_witness :
    (⟨true, 1/5, ⟨[], [], [], true, 0, []⟩⟩ : SearchResult).visible = true :=
  (numberMatch_first_numeric_term envNum42 issueNum42 ["42"] IssueSearch.emptyMatchDetails
    ⟨true, 1/5, ⟨[], [], [], true, 0, []⟩⟩ (by decide) (by
      have hfz : SearchScorer.calculateFuzzyScore IssueSearch.config
          (IssueSearch.getSearchableContent issueNum42) ["42"] IssueSearch.emptyMatchDetails
          = (0, IssueSearch.emptyMatchDetails) := by
        have hw : SearchScorer.tokenizeContent (IssueSearch.getSearchableContent issueNum42)
            = ["xyzzy"] := by decide
        have e2 : StringSimilarity.levenshtein (jsToLowerList "42".toList)
            (jsToLowerList "xyzzy".toList) = 5 := by decide
        have hl2 : (jsToLowerList "42".toList).length = 2 := by decide
        have hl3 : (jsToLowerList "xyzzy".toList).length = 5 := by decide
        have h2 : StringSimilarity.calculate "42" "xyzzy" = 0 := by
          simp only [StringSimilarity.calculate, e2, hl2, hl3]
          norm_num
        simp only [SearchScorer.calculateFuzzyScore, hw]
        norm_num [SearchScorer.fuzzyTermStep, h2, min_def]
      have ht : SearchScorer.calculateTitleScore IssueSearch.config issueNum42 ["42"]
          IssueSearch.emptyMatchDetails = (0, IssueSearch.emptyMatchDetails) := by decide
      have hb : SearchScorer.calculateBodyScore issueNum42 ["42"]
          IssueSearch.emptyMatchDetails = Except.ok (0, IssueSearch.emptyMatchDetails) := by
        decide
      have hm : SearchScorer.calculateMetaScore issueNum42 ["42"]
          IssueSearch.emptyMatchDetails = (2, ⟨[], [], [], true, 0, []⟩) := by decide
      have hv : VectorSearch.getSimilarityScore envNum42.vectorState issueNum42.id ["42"]
          = Except.ok 0 := by decide
      unfold IssueSearch.calculateIssueRelevance
      simp only [ht, hb, hfz, hm, hv, Bind.bind, Except.bind]
      norm_num [IssueSearch.weights, pure, Except.pure])).2.2

/-- C4 (code bug at this input): the body scorer builds a RegExp directly
from the raw query term, so the term "(" (an invalid pattern) makes
scoring throw instead of degrading; the issue's relevance computation
rejects and search silently drops the requested id from the result map. -/
theorem body_scorer_raises_on_invalid_regex :
    SearchScorer.calculateBodyScore issueParen ["("] IssueSearch.emptyMatchDetails
      = Except.error "SyntaxError: Invalid regular expression" ∧
    IssueSearch.calculateIssueRelevance envParen issueParen ["("]
      = Except.error "SyntaxError: Invalid regular expression" ∧
    IssueSearch.mapGet 1 (IssueSearch.search envParen "(" [1]) = none := by
  refine ⟨by decide, by decide, ?_⟩
  decide

/-! ## Characterization of the fuzzy best-match fold -/

theorem fuzzyFold_no_update (θ : ℚ) (f : String → ℚ) (ws : List String)
    (hall : ∀ w ∈ ws, f w ≤ θ) :
    ∀ b0 : String × ℚ,
      ws.foldl (fun b w => if θ < f w ∧ b.2 < f w then (w, f w) else b) b0 = b0 := by
  induction ws with
  | nil => intro b0; rfl
  | cons w rest ih =>
    intro b0
    have hw : f w ≤ θ := hall w (by simp)
    have hcond : ¬ (θ < f w ∧ b0.2 < f w) := fun hc => absurd hc.1 (not_lt.mpr hw)
    simp only [List.foldl_cons, if_neg hcond]
    exact ih (fun w' hw' => hall w' (by simp [hw'])) b0

theorem fuzzyFold_mem (θ : ℚ) (f : String → ℚ) (ws : List String) :
    ∀ b0 : String × ℚ,
      ws.foldl (fun b w => if θ < f w ∧ b.2 < f w then (w, f w) else b) b0 = b0 ∨
      ((ws.foldl (fun b w => if θ < f w ∧ b.2 < f w then (w, f w) else b) b0).1 ∈ ws ∧
        f (ws.foldl (fun b w => if θ < f w ∧ b.2 < f w then (w, f w) else b) b0).1 =
          (ws.foldl (fun b w => if θ < f w ∧ b.2 < f w then (w, f w) else b) b0).2 ∧
        θ < (ws.foldl (fun b w => if θ < f w ∧ b.2 < f w then (w, f w) else b) b0).2) := by
  induction ws with
  | nil => intro b0; left; rfl
  | cons w rest ih =>
    intro b0
    simp only [List.foldl_cons]
    by_cases hc : θ < f w ∧ b0.2 < f w
    · rw [if_pos hc]
      rcases ih (w, f w) with h | h
      · right
        rw [h]
        exact ⟨by simp, rfl, hc.1⟩
      · right
        exact ⟨List.mem_cons_of_mem w h.1, h.2.1, h.2.2⟩
    · rw [if_neg hc]
      rcases ih b0 with h | h
      · left; exact h
      · right
        exact ⟨List.mem_cons_of_mem w h.1, h.2.1, h.2.2⟩

theorem fuzzyFold_score (θ : ℚ) (f : String → ℚ) (ws : List String) :
    ∀ b0 : String × ℚ,
      (ws.foldl (fun b w => if θ < f w ∧ b.2 < f w then (w, f w) else b) b0).2 =
        ws.foldl (fun m w => if θ < f w then max m (f w) else m) b0.2 := by
  induction ws with
  | nil => intro b0; rfl
  | cons w rest ih =>
    intro b0
    simp only [List.foldl_cons]
    by_cases h1 : θ < f w
    · by_cases h2 : b0.2 < f w
      · rw [if_pos ⟨h1, h2⟩, if_pos h1, ih]
        congr 1
        exact (max_eq_right h2.le).symm
      · rw [if_neg (fun hc => h2 hc.2), if_pos h1, ih]
        congr 1
        exact (max_eq_left (not_lt.mp h2)).symm
    · rw [if_neg (fun hc => h1 hc.1), if_neg h1, ih]

theorem maxFold_init_le (f : String → ℚ) (ws : List String) :
    ∀ m0 : ℚ, m0 ≤ ws.foldl (fun m w => max m (f w)) m0 := by
  induction ws with
  | nil => intro m0; exact le_refl _
  | cons v rest ih =>
    intro m0
    simp only [List.foldl_cons]
    exact le_trans (le_max_left _ _) (ih _)

theorem maxFold_ge_elem (f : String → ℚ) (ws : List String) :
    ∀ (m0 : ℚ) (w : String), w ∈ ws →
      f w ≤ ws.foldl (fun m w => max m (f w)) m0 := by
  induction ws with
  | nil => intro m0 w h; simp at h
  | cons v rest ih =>
    intro m0 w hw
    simp only [List.foldl_cons]
    rcases List.mem_cons.mp hw with h | h
    · subst h
      calc f w ≤ max m0 (f w) := le_max_right _ _
        _ ≤ rest.foldl (fun m w => max m (f w)) (max m0 (f w)) := maxFold_init_le f rest _
    · exact ih _ w h

theorem maxFold_mem (f : String → ℚ) (ws : List String) :
    ∀ m0 : ℚ, ws.foldl (fun m w => max m (f w)) m0 = m0 ∨
      ∃ w ∈ ws, ws.foldl (fun m w => max m (f w)) m0 = f w := by
  induction ws with
  | nil => intro m0; left; rfl
  | cons v rest ih =>
    intro m0
    simp only [List.foldl_cons]
    rcases ih (max m0 (f v)) with h | h
    · rw [h]
      rcases max_choice m0 (f v) with hm | hm
      · left; exact hm
      · right; exact ⟨v, by simp, hm⟩
    · obtain ⟨w, hw, hval⟩ := h
      right; exact ⟨w, by simp [hw], hval⟩

theorem scoreFold_init_le (θ : ℚ) (f : String → ℚ) (ws : List String) :
    ∀ m0 : ℚ, m0 ≤ ws.foldl (fun m w => if θ < f w then max m (f w) else m) m0 := by
  induction ws with
  | nil => intro m0; exact le_refl _
  | cons v rest ih =>
    intro m0
    simp only [List.foldl_cons]
    by_cases h : θ < f v
    · rw [if_pos h]
      exact le_trans (le_max_left _ _) (ih _)
    · rw [if_neg h]
      exact ih _

theorem elem_le_scoreFold (θ : ℚ) (f : String → ℚ) (ws : List String) :
    ∀ (m0 : ℚ) (w : String), w ∈ ws → θ < f w →
      f w ≤ ws.foldl (fun m w => if θ < f w then max m (f w) else m) m0 := by
  induction ws with
  | nil => intro m0 w h; simp at h
  | cons v rest ih =>
    intro m0 w hw hgt
    simp only [List.foldl_cons]
    rcases List.mem_cons.mp hw with h | h
    · subst h
      rw [if_pos hgt]
      exact le_trans (le_max_right _ _) (scoreFold_init_le θ f rest _)
    · exact ih _ w h hgt

theorem scoreFold_le_maxFold (θ : ℚ) (f : String → ℚ) (ws : List String) :
    ∀ m0 m1 : ℚ, m0 ≤ m1 →
      ws.foldl (fun m w => if θ < f w then max m (f w) else m) m0 ≤
        ws.foldl (fun m w => max m (f w)) m1 := by
  induction ws with
  | nil => intro m0 m1 h; exact h
  | cons v rest ih =>
    intro m0 m1 h
    simp only [List.foldl_cons]
    by_cases hv : θ < f v
    · rw [if_pos hv]
      exact ih _ _ (max_le_max h (le_refl _))
    · rw [if_neg hv]
      exact ih _ _ (le_trans h (le_max_left _ _))

theorem scoreFold_eq_maxFold (θ : ℚ) (f : String → ℚ) (ws : List String)
    (hθ : 0 ≤ θ) (hex : ∃ w ∈ ws, θ < f w) :
    ws.foldl (fun m w => if θ < f w then max m (f w) else m) 0 =
      ws.foldl (fun m w => max m (f w)) 0 := by
  obtain ⟨w0, hw0, hgt0⟩ := hex
  refine le_antisymm (scoreFold_le_maxFold θ f ws 0 0 (le_refl _)) ?_
  rcases maxFold_mem f ws 0 with h | h
  · exfalso
    have := maxFold_ge_elem f ws 0 w0 hw0
    rw [h] at this
    exact absurd (lt_of_lt_of_le hgt0 this) (not_lt.mpr hθ)
  · obtain ⟨w1, hw1, hval⟩ := h
    rw [hval]
    have hgt1 : θ < f w1 := by
      rw [← hval]
      exact lt_of_lt_of_le hgt0 (maxFold_ge_elem f ws 0 w0 hw0)
    exact elem_le_scoreFold θ f ws 0 w1 hw1 hgt1

theorem bestSim_eq_maxFold (t : String) (ws : List String) :
    bestSim t ws = ws.foldl (fun m w => max m (StringSimilarity.calculate t w)) 0 := by
  unfold bestSim
  rw [List.foldl_map]

theorem fuzzyStep_generic (θ wgt : ℚ) (f : String → ℚ) (ws : List String)
    (sc : ℚ) (d : MatchDetails) (t : String) (M : ℚ)
    (hθ : 0 ≤ θ) (hM : M = ws.foldl (fun m w => max m (f w)) 0) :
    ((∀ w ∈ ws, f w ≤ θ) →
      (let r := ws.foldl (fun b w => if θ < f w ∧ b.2 < f w then (w, f w) else b) ("", 0);
        if 0 < r.2 then (sc + r.2 * wgt, SearchScorer.pushFuzzy d t r.1 r.2) else (sc, d))
        = (sc, d)) ∧
    ((∃ w ∈ ws, θ < f w) →
      (let r := ws.foldl (fun b w => if θ < f w ∧ b.2 < f w then (w, f w) else b) ("", 0);
        if 0 < r.2 then (sc + r.2 * wgt, SearchScorer.pushFuzzy d t r.1 r.2) else (sc, d)).1
        = sc + M * wgt ∧
      ∃ w ∈ ws, f w = M ∧
        (let r := ws.foldl (fun b w => if θ < f w ∧ b.2 < f w then (w, f w) else b) ("", 0);
          if 0 < r.2 then (sc + r.2 * wgt, SearchScorer.pushFuzzy d t r.1 r.2) else (sc, d)).2
          = SearchScorer.pushFuzzy d t w M) := by
  constructor
  · intro hall
    simp only [fuzzyFold_no_update θ f ws hall ("", 0)]
    norm_num
  · intro hex
    obtain ⟨w0, hw0, hgt0⟩ := hex
    have hr2 : (ws.foldl (fun b w => if θ < f w ∧ b.2 < f w then (w, f w) else b) ("", 0)).2
        = M := by
      rw [fuzzyFold_score θ f ws ("", 0)]
      rw [show (("", (0 : ℚ))).2 = (0 : ℚ) from rfl]
      rw [scoreFold_eq_maxFold θ f ws hθ ⟨w0, hw0, hgt0⟩, ← hM]
    have hpos : 0 < (ws.foldl (fun b w => if θ < f w ∧ b.2 < f w then (w, f w) else b)
        ("", 0)).2 := by
      rw [hr2, hM]
      exact lt_of_le_of_lt hθ (lt_of_lt_of_le hgt0 (maxFold_ge_elem f ws 0 w0 hw0))
    simp only []
    rw [if_pos hpos]
    refine ⟨by rw [hr2], ?_⟩
    rcases fuzzyFold_mem θ f ws ("", 0) with hm | hm
    · exfalso
      rw [hm] at hpos
      exact lt_irrefl 0 hpos
    · exact ⟨_, hm.1, by rw [hm.2.1, hr2], by rw [hr2]⟩

/-- C6: per query term, fuzzy scoring counts a content word only when its
similarity strictly exceeds the configured threshold. If every content
word's similarity is at most the threshold (in particular when the best
similarity equals the threshold exactly), the term contributes nothing to
the score and nothing to the fuzzy evidence; if some similarity is strictly
above the threshold, the term contributes exactly bestScore times
fuzzyMatchWeight and pushes a single evidence entry whose score is the best
(maximal) similarity over all content words — only the single best match is
counted. -/
theorem fuzzy_threshold_strict (cfg : SearchConfig) (contentWords : List String)
    (searchTerm : String) (sc : ℚ) (d : MatchDetails)
    (hθ : 0 ≤ cfg.fuzzySearchThreshold) :
    ((∀ w ∈ contentWords,
        StringSimilarity.calculate searchTerm w ≤ cfg.fuzzySearchThreshold) →
      SearchScorer.fuzzyTermStep cfg contentWords (sc, d) searchTerm = (sc, d)) ∧
    ((∃ w ∈ contentWords,
        cfg.fuzzySearchThreshold < StringSimilarity.calculate searchTerm w) →
      (SearchScorer.fuzzyTermStep cfg contentWords (sc, d) searchTerm).1
          = sc + bestSim searchTerm contentWords * cfg.fuzzyMatchWeight ∧
      ∃ w ∈ contentWords,
        StringSimilarity.calculate searchTerm w = bestSim searchTerm contentWords ∧
        (SearchScorer.fuzzyTermStep cfg contentWords (sc, d) searchTerm).2
          = SearchScorer.pushFuzzy d searchTerm w (bestSim searchTerm contentWords)) :=
  fuzzyStep_generic cfg.fuzzySearchThreshold cfg.fuzzyMatchWeight
    (fun w => StringSimilarity.calculate searchTerm w) contentWords sc d searchTerm
    (bestSim searchTerm contentWords) hθ (bestSim_eq_maxFold searchTerm contentWords)

theorem fuzzy_threshold_strict_witness :
    (SearchScorer.fuzzyTermStep IssueSearch.config ["hello"]
        (0, IssueSearch.emptyMatchDetails) "helo").1
      = 0 + bestSim "helo" ["hello"] * IssueSearch.config.fuzzyMatchWeight :=
  ((fuzzy_threshold_strict IssueSearch.config ["hello"] "helo" 0 IssueSearch.emptyMatchDetails
      (by norm_num [IssueSearch.config])).2
    ⟨"hello", by simp, by
      have e : StringSimilarity.levenshtein (jsToLowerList "helo".toList)
          (jsToLowerList "hello".toList) = 1 := by decide
      have hl1 : (jsToLowerList "helo".toList).length = 4 := by decide
      have hl2 : (jsToLowerList "hello".toList).length = 5 := by decide
      have hc : StringSimilarity.calculate "helo" "hello" = 4/5 := by
        simp only [StringSimilarity.calculate, e, hl1, hl2]
        norm_num
      rw [hc]
      norm_num [IssueSearch.config]⟩).1

theorem cosineSimilarity_bounds (vecA vecB : List ℚ) :
    0 ≤ VectorSearch.cosineSimilarity vecA vecB ∧
      VectorSearch.cosineSimilarity vecA vecB ≤ 1 := by
  unfold VectorSearch.cosineSimilarity
  simp only []
  exact ⟨le_max_left _ _, max_le (by norm_num) (min_le_left _ _)⟩

/-- C7: the embedding similarity fast-rejects with 0 when the id has no
stored vector or the term list is empty — for every encoder state, including
an uninitialized one, so the encoder is not consulted; when a (unit) vector
is stored, the terms are nonempty and the encoder is ready, the call
succeeds and the clamped cosine similarity lies in [0, 1]. -/
theorem getSimilarityScore_spec (st : VectorSearchState) (documentId : ℕ)
    (queryTerms : List String) :
    ((List.lookup documentId st.documentVectors = none ∨ queryTerms = []) →
      VectorSearch.getSimilarityScore st documentId queryTerms = Except.ok 0) ∧
    (∀ (v : List ℚ) (e : String → List ℚ) (r : ℚ),
      List.lookup documentId st.documentVectors = some v →
      v.foldl (fun s x => s + x * x) 0 = 1 →
      queryTerms ≠ [] →
      st.encoder = some e →
      VectorSearch.getSimilarityScore st documentId queryTerms = Except.ok r →
      0 ≤ r ∧ r ≤ 1) ∧
    (∀ (v : List ℚ) (e : String → List ℚ),
      List.lookup documentId st.documentVectors = some v →
      queryTerms ≠ [] →
      st.encoder = some e →
      (VectorSearch.getSimilarityScore st documentId queryTerms).isOk = true) := by
  refine ⟨?_, ?_, ?_⟩
  · intro h
    unfold VectorSearch.getSimilarityScore
    have hcond : ((List.lookup documentId st.documentVectors).isNone || queryTerms.isEmpty)
        = true := by
      rcases h with h | h
      · simp [h]
      · simp [h]
    rw [if_pos hcond]
  · intro v e r hv hunit hne henc hr
    unfold VectorSearch.getSimilarityScore at hr
    rw [if_neg (by simp [hv, hne])] at hr
    rw [henc] at hr
    simp only [hv] at hr
    simp only [Except.ok.injEq] at hr
    rw [← hr]
    exact cosineSimilarity_bounds _ _
  · intro v e hv hne henc
    unfold VectorSearch.getSimilarityScore
    rw [if_neg (by simp [hv, hne])]
    rw [henc]
    simp only [hv]
    rfl

theorem getSimilarityScore_spec_witness :
    ((0 : ℚ) ≤ 1 ∧ (1 : ℚ) ≤ 1) ∧
    VectorSearch.getSimilarityScore oneDocState 2 ["a"] = Except.ok 0 := by
  have hunit : List.foldl (fun s x => s + x * x) 0 ([1] : List ℚ) = 1 := by norm_num
  have hval : VectorSearch.getSimilarityScore oneDocState 1 ["a"] = Except.ok 1 := by
    unfold VectorSearch.getSimilarityScore
    rw [if_neg (by decide)]
    show (match oneDocState.encoder with
      | none => Except.error "Encoder not initialized"
      | some encoder => _) = _
    rw [show oneDocState.encoder = some unitEncoder from rfl]
    simp only []
    norm_num [unitEncoder, VectorSearch.cosineSimilarity, Rat.sqrt, min_def, max_def,
      List.enum, List.enumFrom, oneDocState]
  exact ⟨(getSimilarityScore_spec oneDocState 1 ["a"]).2.1 [1] unitEncoder 1 (by decide)
      hunit (by decide) rfl hval,
    (getSimilarityScore_spec oneDocState 2 ["a"]).1 (Or.inl (by decide))⟩

/-! ## Order and stability of the descending sort model -/

theorem mem_insertDescBy {α : Type} (key : α → ℚ) (x a : α) :
    ∀ l : List α, a ∈ insertDescBy key x l ↔ a = x ∨ a ∈ l := by
  intro l
  induction l with
  | nil => simp [insertDescBy]
  | cons y ys ih =>
    rw [insertDescBy]
    by_cases hc : key y ≤ key x
    · rw [if_pos hc]
      simp [or_comm, or_assoc, or_left_comm]
    · rw [if_neg hc]
      simp only [List.mem_cons, ih]
      tauto

theorem pairwise_insertDescBy {α : Type} (key : α → ℚ) (x : α) :
    ∀ l : List α, l.Pairwise (fun u v => key v ≤ key u) →
      (insertDescBy key x l).Pairwise (fun u v => key v ≤ key u) := by
  intro l
  induction l with
  | nil => simp [insertDescBy]
  | cons y ys ih =>
    intro h
    rw [insertDescBy]
    by_cases hc : key y ≤ key x
    · rw [if_pos hc]
      rw [List.pairwise_cons]
      refine ⟨?_, h⟩
      intro z hz
      rcases List.mem_cons.mp hz with rfl | hz'
      · exact hc
      · exact le_trans ((List.pairwise_cons.mp h).1 z hz') hc
    · rw [if_neg hc]
      rw [List.pairwise_cons] at h ⊢
      refine ⟨?_, ih h.2⟩
      intro z hz
      rcases (mem_insertDescBy key x z ys).mp hz with rfl | hz'
      · exact le_of_lt (not_le.mp hc)
      · exact h.1 z hz'

theorem sortDescBy_pairwise {α : Type} (key : α → ℚ) :
    ∀ l : List α, (sortDescBy key l).Pairwise (fun u v => key v ≤ key u) := by
  intro l
  induction l with
  | nil => simp [sortDescBy]
  | cons x xs ih =>
    rw [sortDescBy]
    exact pairwise_insertDescBy key x _ ih

theorem perm_insertDescBy {α : Type} (key : α → ℚ) (x : α) :
    ∀ l : List α, (insertDescBy key x l).Perm (x :: l) := by
  intro l
  induction l with
  | nil => rfl
  | cons y ys ih =>
    rw [insertDescBy]
    by_cases hc : key y ≤ key x
    · rw [if_pos hc]
    · rw [if_neg hc]
      exact (ih.cons y).trans (List.Perm.swap x y ys)

theorem sortDescBy_perm {α : Type} (key : α → ℚ) :
    ∀ l : List α, (sortDescBy key l).Perm l := by
  intro l
  induction l with
  | nil => rfl
  | cons x xs ih =>
    rw [sortDescBy]
    exact (perm_insertDescBy key x _).trans (ih.cons x)

theorem filter_insertDescBy {α : Type} (key : α → ℚ) (s : ℚ) (x : α) :
    ∀ l : List α,
      (insertDescBy key x l).filter (fun a => decide (key a = s)) =
        if key x = s then x :: l.filter (fun a => decide (key a = s))
        else l.filter (fun a => decide (key a = s)) := by
  intro l
  induction l with
  | nil =>
    rw [insertDescBy]
    by_cases hx : key x = s
    · simp [List.filter, hx]
    · simp [List.filter, hx]
  | cons y ys ih =>
    rw [insertDescBy]
    by_cases hc : key y ≤ key x
    · rw [if_pos hc]
      by_cases hx : key x = s
      · simp [List.filter_cons, hx]
      · simp [List.filter_cons, hx]
    · rw [if_neg hc]
      have hylt : key x < key y := not_le.mp hc
      by_cases hx : key x = s
      · have hy : ¬ (key y = s) := by
          intro hys
          rw [hys, ← hx] at hylt
          exact absurd hylt (lt_irrefl _)
        rw [List.filter_cons, List.filter_cons]
        simp only [hy, decide_eq_true_eq, if_neg, decide_eq_false hy, Bool.false_eq_true,
          if_false, ih, if_pos hx]
      · rw [List.filter_cons, List.filter_cons, ih, if_neg hx, if_neg hx]

theorem filter_sortDescBy {α : Type} (key : α → ℚ) (s : ℚ) :
    ∀ l : List α,
      (sortDescBy key l).filter (fun a => decide (key a = s)) =
        l.filter (fun a => decide (key a = s)) := by
  intro l
  induction l with
  | nil => rfl
  | cons x xs ih =>
    rw [sortDescBy, filter_insertDescBy, List.filter_cons]
    by_cases hx : key x = s
    · rw [if_pos hx, ih]
      simp [hx]
    · rw [if_neg hx, ih]
      simp [hx]

/-- C8 (amended): the top-K vector query returns at most topK pairs ordered
by descending score; ties between equal scores are broken by the storage
(insertion) order of the vector store — the sort is stable — not by
ascending id: for every score value, the returned entries carrying that
score form a prefix of the stored entries carrying that score, in store
order. -/
theorem vector_search_topK_spec (st : VectorSearchState) (query : String) (topK : ℕ)
    (e : String → List ℚ) (l : List (ℕ × ℚ))
    (henc : st.encoder = some e)
    (h : VectorSearch.search st query topK = Except.ok l) :
    l.length ≤ topK ∧
    l.Pairwise (fun a b => b.2 ≤ a.2) ∧
    ∀ s : ℚ, l.filter (fun p => decide (p.2 = s)) <+:
      (VectorSearch.scoredEntries st e query).filter (fun p => decide (p.2 = s)) := by
  unfold VectorSearch.search at h
  rw [henc] at h
  simp only [Except.ok.injEq] at h
  subst h
  refine ⟨?_, ?_, ?_⟩
  · simp [List.length_take]
  · exact (sortDescBy_pairwise Prod.snd _).sublist (List.take_sublist _ _)
  · intro s
    have hpre : (sortDescBy Prod.snd (VectorSearch.scoredEntries st e query)).take topK <+:
        sortDescBy Prod.snd (VectorSearch.scoredEntries st e query) :=
      ⟨(sortDescBy Prod.snd (VectorSearch.scoredEntries st e query)).drop topK,
        List.take_append_drop _ _⟩
    have := hpre.filter (fun p => decide (p.2 = s))
    rwa [filter_sortDescBy Prod.snd s] at this

/-- C8 (counterexample): with vectors stored under id 5 then id 3 and equal
scores, the top-K result is [(5, 1), (3, 1)] — store insertion order — not
ascending id as the claim states. -/
theorem vector_search_topK_ties_counterexample :
    VectorSearch.search twoDocState "q" 2 = Except.ok [(5, 1), (3, 1)] ∧
    ¬ descendingTiesById [(5, 1), (3, 1)] := by
  constructor
  · unfold VectorSearch.search
    rw [show twoDocState.encoder = some unitEncoder from rfl]
    simp only []
    have hcos : VectorSearch.cosineSimilarity (unitEncoder (VectorSearch.preprocessText "q"))
        [1] = 1 := by
      norm_num [unitEncoder, VectorSearch.cosineSimilarity, Rat.sqrt, min_def, max_def,
        List.enum, List.enumFrom]
    norm_num [VectorSearch.scoredEntries, twoDocState, hcos, sortDescBy, insertDescBy]
  · intro h
    rcases List.pairwise_cons.mp h with ⟨hhead, _⟩
    rcases hhead (3, 1) (by simp) with h1 | h2
    · exact absurd h1 (lt_irrefl _)
    · exact absurd h2.2 (by norm_num)

theorem vector_search_topK_spec_witness :
    [((5 : ℕ), (1 : ℚ)), (3, 1)].filter (fun p => decide (p.2 = 1)) <+:
      (VectorSearch.scoredEntries twoDocState unitEncoder "q").filter
        (fun p => decide (p.2 = 1)) := by
  have hs : VectorSearch.search twoDocState "q" 2 = Except.ok [(5, 1), (3, 1)] := by
    unfold VectorSearch.search
    rw [show twoDocState.encoder = some unitEncoder from rfl]
    simp only []
    have hcos : VectorSearch.cosineSimilarity (unitEncoder (VectorSearch.preprocessText "q"))
        [1] = 1 := by
      norm_num [unitEncoder, VectorSearch.cosineSimilarity, Rat.sqrt, min_def, max_def,
        List.enum, List.enumFrom]
    norm_num [VectorSearch.scoredEntries, twoDocState, hcos, sortDescBy, insertDescBy]
  exact (vector_search_topK_spec twoDocState "q" 2 unitEncoder [(5, 1), (3, 1)] rfl hs).2.2 1

/-! ## NDCG diagnostic -/

theorem sortDescBy_of_sorted {α : Type} (key : α → ℚ) :
    ∀ l : List α, l.Pairwise (fun u v => key v ≤ key u) → sortDescBy key l = l := by
  intro l
  induction l with
  | nil => intro _; rfl
  | cons x xs ih =>
    intro h
    rw [List.pairwise_cons] at h
    rw [sortDescBy, ih h.2]
    cases xs with
    | nil => rfl
    | cons y ys =>
      rw [insertDescBy, if_pos (h.1 y (by simp))]

theorem gain_nonneg (s : ℚ) (h : 0 ≤ s) : (0 : ℝ) ≤ (2 : ℝ) ^ (s : ℝ) - 1 := by
  have h2 : (2 : ℝ) ^ (0 : ℝ) ≤ (2 : ℝ) ^ (s : ℝ) :=
    Real.rpow_le_rpow_of_exponent_le (by norm_num) (by exact_mod_cast h)
  rw [Real.rpow_zero] at h2
  linarith

theorem gain_pos (s : ℚ) (h : 0 < s) : (0 : ℝ) < (2 : ℝ) ^ (s : ℝ) - 1 := by
  have h2 : (2 : ℝ) ^ (0 : ℝ) < (2 : ℝ) ^ (s : ℝ) :=
    Real.rpow_lt_rpow_of_exponent_lt (by norm_num) (by exact_mod_cast h)
  rw [Real.rpow_zero] at h2
  linarith

theorem discount_pos (i : ℕ) : (0 : ℝ) < Real.logb 2 ((i : ℝ) + 2) := by
  refine Real.logb_pos (by norm_num) ?_
  have := Nat.cast_nonneg (α := ℝ) i
  linarith

theorem dcgAux_nonneg (l : List ℚ) (h : ∀ s ∈ l, (0 : ℚ) ≤ s) :
    ∀ i : ℕ, 0 ≤ IssueSearch.dcgAux l i := by
  induction l with
  | nil => intro i; exact le_refl _
  | cons s rest ih =>
    intro i
    rw [IssueSearch.dcgAux]
    have h1 : (0 : ℝ) ≤ ((2 : ℝ) ^ ((s : ℚ) : ℝ) - 1) / Real.logb 2 ((i : ℝ) + 2) :=
      div_nonneg (gain_nonneg s (h s (by simp))) (discount_pos i).le
    have h2 := ih (fun t ht => h t (by simp [ht])) (i + 1)
    linarith

theorem dcgAux_pos (l : List ℚ) (h : ∀ s ∈ l, (0 : ℚ) ≤ s) (s0 : ℚ) (hm : s0 ∈ l)
    (hp : 0 < s0) : ∀ i : ℕ, 0 < IssueSearch.dcgAux l i := by
  induction l with
  | nil => exact absurd hm (by simp)
  | cons s rest ih =>
    intro i
    rw [IssueSearch.dcgAux]
    rcases List.mem_cons.mp hm with rfl | hm'
    · have h1 : (0 : ℝ) < ((2 : ℝ) ^ ((s0 : ℚ) : ℝ) - 1) / Real.logb 2 ((i : ℝ) + 2) :=
        div_pos (gain_pos s0 hp) (discount_pos i)
      have h2 := dcgAux_nonneg rest (fun t ht => h t (by simp [ht])) (i + 1)
      linarith
    · have h1 : (0 : ℝ) ≤ ((2 : ℝ) ^ ((s : ℚ) : ℝ) - 1) / Real.logb 2 ((i : ℝ) + 2) :=
        div_nonneg (gain_nonneg s (h s (by simp))) (discount_pos i).le
      have h2 := ih (fun t ht => h t (by simp [ht])) hm' (i + 1)
      linarith

/-- C9 (counterexample): a result mapping with a non-empty visible set —
one visible entry of score 0 — makes the NDCG diagnostic return 0, not 1.0:
both the DCG and ideal DCG vanish, and the division guard yields 0. -/
theorem ndcg_not_always_one_counterexample :
    ((zeroScoreResults.map Prod.snd).filter (fun r => r.visible)) ≠ [] ∧
    IssueSearch.calculateNDCGScore zeroScoreResults ≠ 1 := by
  constructor
  · decide
  · have hs : sortDescBy id (((zeroScoreResults.map Prod.snd).filter
        (fun r => r.visible)).map (fun r => r.score)) = [0] := by decide
    unfold IssueSearch.calculateNDCGScore
    rw [hs]
    simp only []
    rw [if_neg (by decide), show sortDescBy id [(0 : ℚ)] = [0] from by decide]
    rw [show IssueSearch.dcgAux [(0 : ℚ)] 0 =
        ((2 : ℝ) ^ (((0 : ℚ) : ℝ)) - 1) / Real.logb 2 (((0 : ℕ) : ℝ) + 2) + 0 from rfl]
    norm_num [Real.rpow_zero]

/-- C9 (amended): for every result mapping whose visible entries have
nonnegative scores and at least one strictly positive visible score, the
NDCG-style diagnostic equals 1.0 — the score list is already sorted
descending, so the ideal DCG is the DCG itself; in the degenerate case
where every visible score is 0 (but the visible set is non-empty) the
division guard makes the function return 0 instead. -/
theorem ndcg_self_consistent (results : List (ℕ × SearchResult))
    (hnn : ∀ p ∈ results, p.2.visible = true → 0 ≤ p.2.score)
    (hpos : ∃ p ∈ results, p.2.visible = true ∧ 0 < p.2.score) :
    IssueSearch.calculateNDCGScore results = 1 := by
  have hnnb : ∀ s ∈ ((results.map Prod.snd).filter (fun r => r.visible)).map
      (fun r => r.score), (0 : ℚ) ≤ s := by
    intro s hs
    simp only [List.mem_map, List.mem_filter] at hs
    obtain ⟨r, ⟨⟨p, hp, hpr⟩, hvis⟩, hsc⟩ := hs
    rw [← hsc, ← hpr]
    exact hnn p hp (by rw [hpr]; exact hvis)
  have hexb : ∃ s ∈ ((results.map Prod.snd).filter (fun r => r.visible)).map
      (fun r => r.score), (0 : ℚ) < s := by
    obtain ⟨p, hp, hvis, hsc⟩ := hpos
    refine ⟨p.2.score, ?_, hsc⟩
    simp only [List.mem_map, List.mem_filter]
    exact ⟨p.2, ⟨⟨p, hp, rfl⟩, hvis⟩, rfl⟩
  unfold IssueSearch.calculateNDCGScore
  simp only []
  rw [sortDescBy_of_sorted id _ (sortDescBy_pairwise id _)]
  have hperm := sortDescBy_perm id (((results.map Prod.snd).filter
    (fun r => r.visible)).map (fun r => r.score))
  have hnnL : ∀ s ∈ sortDescBy id (((results.map Prod.snd).filter
      (fun r => r.visible)).map (fun r => r.score)), (0 : ℚ) ≤ s :=
    fun s hs => hnnb s (hperm.mem_iff.mp hs)
  have hexL : ∃ s ∈ sortDescBy id (((results.map Prod.snd).filter
      (fun r => r.visible)).map (fun r => r.score)), (0 : ℚ) < s := by
    obtain ⟨s, hm, hp⟩ := hexb
    exact ⟨s, hperm.mem_iff.mpr hm, hp⟩
  obtain ⟨s0, hm0, hp0⟩ := hexL
  have hdpos : 0 < IssueSearch.dcgAux (sortDescBy id (((results.map Prod.snd).filter
      (fun r => r.visible)).map (fun r => r.score))) 0 :=
    dcgAux_pos _ hnnL s0 hm0 hp0 0
  have hne : ¬ ((sortDescBy id (((results.map Prod.snd).filter
      (fun r => r.visible)).map (fun r => r.score))).isEmpty = true) := by
    intro h
    rw [List.isEmpty_iff] at h
    rw [h] at hm0
    simp at hm0
  rw [if_neg hne, if_neg (ne_of_gt hdpos)]
  exact div_self (ne_of_gt hdpos)

theorem ndcg_self_consistent_witness :
    IssueSearch.calculateNDCGScore oneScoreResults = 1 :=
  ndcg_self_consistent oneScoreResults (by decide) (by decide)
